import Mathlib

/-!
Verification of the downcast library (src/lib.rs): a `Downcast` trait with a
blanket implementation over every `T : Any`, and the `impl_downcast!` macro
that generates `is` / `downcast_ref` / `downcast_mut` on the erased
(trait-object) form of a user trait, forwarding to `std::any::Any`.

Semantic layer: an erased `dyn Any` value is a runtime type tag together with
the stored value; the tag interpretation `δ` assigns to each tag the Lean type
of values stored under it.  Exact tag comparison models `TypeId` equality.
-/

/-- Runtime type identity tag, modelling `std::any::TypeId`. -/
structure TypeId where
  id : Nat
deriving DecidableEq, Repr

/-- An erased `dyn Any` value: the runtime tag of the underlying concrete type
together with the stored value itself.  `δ` interprets tags as Lean types. -/
structure AnyRef (δ : TypeId → Type) where
  type_id : TypeId
  value : δ type_id

/-- The `Any::is` test from the standard library collaborator: compare the
tag of the candidate type with the tag of the stored value.  Exact identity
comparison, nothing structural. -/
def AnyRef.is {δ : TypeId → Type} (self : AnyRef δ) (t : TypeId) : Bool :=
  decide (self.type_id = t)

/-- The `Any::downcast_ref` operation: if the stored tag is exactly `t`,
return the stored value itself viewed at type `δ t`; otherwise none. -/
def AnyRef.downcast_ref {δ : TypeId → Type} (self : AnyRef δ) (t : TypeId) :
    Option (δ t) :=
  if h : self.type_id = t then some (h ▸ self.value) else none

/-- The `Any::downcast_mut` operation: same test as `downcast_ref`, returning
the mutable view of the stored value when the tag matches. -/
def AnyRef.downcast_mut {δ : TypeId → Type} (self : AnyRef δ) (t : TypeId) :
    Option (δ t) :=
  if h : self.type_id = t then some (h ▸ self.value) else none

/-- Writing through the mutable view returned by `downcast_mut`: when the tag
matches, the stored value is replaced by `f` of it (the caller mutates through
the returned reference); when the test fails there is no view to write
through, so the value is untouched. -/
def AnyRef.write_mut {δ : TypeId → Type} (self : AnyRef δ) (t : TypeId)
    (f : δ t → δ t) : AnyRef δ :=
  if h : self.type_id = t then ⟨t, f (h ▸ self.value)⟩ else self

/-- The blanket implementation `impl<T: Any> Downcast for T` (src/lib.rs
lines 9-16): `as_any` on a concrete value is `self`, i.e. it erases the very
value it was called on, keeping its tag and its storage. -/
def Downcast.as_any {δ : TypeId → Type} (t : TypeId) (x : δ t) : AnyRef δ :=
  ⟨t, x⟩

/-- The blanket implementation of `as_any_mut`: likewise returns `self`. -/
def Downcast.as_any_mut {δ : TypeId → Type} (t : TypeId) (x : δ t) :
    AnyRef δ := ⟨t, x⟩

/-- A value held through the erased (trait-object) form of a downcast-enabled
trait: the erased data together with evidence that its underlying concrete
type implements the trait (`Impl` is the set of implementing tags). -/
structure TraitObject (δ : TypeId → Type) (Impl : TypeId → Prop) where
  data : AnyRef δ
  impl : Impl data.type_id

/-- `crate::Downcast::as_any(self)` on a trait object: dynamic dispatch
reaches the blanket implementation at the underlying concrete type, so the
result erases the underlying value itself. -/
def TraitObject.as_any {δ : TypeId → Type} {Impl : TypeId → Prop}
    (self : TraitObject δ Impl) : AnyRef δ :=
  Downcast.as_any self.data.type_id self.data.value

/-- `crate::Downcast::as_any_mut(self)` on a trait object, likewise. -/
def TraitObject.as_any_mut {δ : TypeId → Type} {Impl : TypeId → Prop}
    (self : TraitObject δ Impl) : AnyRef δ :=
  Downcast.as_any_mut self.data.type_id self.data.value

/-- Generated `is` (src/lib.rs lines 39-42): requires the candidate type to
implement the trait (the bound on the method type parameter), and forwards to
`Downcast::as_any(self).is`. -/
def TraitObject.is {δ : TypeId → Type} {Impl : TypeId → Prop}
    (self : TraitObject δ Impl) (t : TypeId) (_ht : Impl t) : Bool :=
  (TraitObject.as_any self).is t

/-- Generated `downcast_ref` (src/lib.rs lines 44-47): forwards to
`Downcast::as_any(self).downcast_ref`. -/
def TraitObject.downcast_ref {δ : TypeId → Type} {Impl : TypeId → Prop}
    (self : TraitObject δ Impl) (t : TypeId) (_ht : Impl t) : Option (δ t) :=
  (TraitObject.as_any self).downcast_ref t

/-- Generated `downcast_mut` (src/lib.rs lines 49-52): forwards to
`Downcast::as_any_mut(self).downcast_mut`. -/
def TraitObject.downcast_mut {δ : TypeId → Type} {Impl : TypeId → Prop}
    (self : TraitObject δ Impl) (t : TypeId) (_ht : Impl t) : Option (δ t) :=
  (TraitObject.as_any_mut self).downcast_mut t

/-- Writing through `downcast_mut` preserves the tag of the erased value. -/
theorem AnyRef.write_mut_type_id {δ : TypeId → Type} (self : AnyRef δ)
    (t : TypeId) (f : δ t → δ t) :
    (self.write_mut t f).type_id = self.type_id := by
  unfold AnyRef.write_mut
  split
  · simp_all
  · rfl

/-- Mutation of a trait-object value through the view returned by
`downcast_mut`: the underlying erased data is updated, and the implementation
evidence carries over since the tag is unchanged. -/
def TraitObject.write_mut {δ : TypeId → Type} {Impl : TypeId → Prop}
    (self : TraitObject δ Impl) (t : TypeId) (_ht : Impl t)
    (f : δ t → δ t) : TraitObject δ Impl :=
  ⟨self.data.write_mut t f, by
    rw [AnyRef.write_mut_type_id]; exact self.impl⟩

/- Concrete universe for witnesses, following the test module of src/lib.rs:
`Foo(u32)` and `Bar(f64)` both implementing a trait `Base`. -/

/-- Tag of the concrete type `Foo`. -/
def fooId : TypeId := ⟨0⟩

/-- Tag of the concrete type `Bar`. -/
def barId : TypeId := ⟨1⟩

/-- Tag interpretation for the test universe: `Foo` stores a `u32` field
(modelled as `Nat`), `Bar` a numeric field (modelled as `Int`). -/
def testδ : TypeId → Type
  | ⟨0⟩ => Nat
  | ⟨1⟩ => Int
  | _ => Unit

/-- Implementing tags of the test trait `Base`: `Foo` and `Bar`. -/
def testImpl : TypeId → Prop := fun t => t = fooId ∨ t = barId

/-- The test value `Foo(42)` held through `Box<dyn Base>`. -/
def fooVal : TraitObject testδ testImpl :=
  ⟨⟨fooId, (42 : Nat)⟩, Or.inl rfl⟩

/-- When the stored tag is exactly `t`, `Any::downcast_ref` yields the stored
value viewed at `δ t`. -/
theorem AnyRef.downcast_ref_pos {δ : TypeId → Type} (a : AnyRef δ)
    (t : TypeId) (h : a.type_id = t) :
    a.downcast_ref t = some (h ▸ a.value) :=
  dif_pos h

/-- When the stored tag is exactly `t`, writing through the mutable view
replaces the stored value by `f` of it, keeping the tag. -/
theorem AnyRef.write_mut_pos {δ : TypeId → Type} (a : AnyRef δ)
    (t : TypeId) (h : a.type_id = t) (f : δ t → δ t) :
    a.write_mut t f = ⟨t, f (h ▸ a.value)⟩ :=
  dif_pos h

/-- Claim C1: exactness of the type test.  For any erased value whose
underlying concrete type is `a`, and any distinct implementing type `b`, the
generated `is` returns true at `a` and false at `b`, for every universe of
types and every set of implementers. -/
theorem is_exact {δ : TypeId → Type} {Impl : TypeId → Prop}
    (v : TraitObject δ Impl) (a b : TypeId) (ha : Impl a) (hb : Impl b)
    (hhold : v.data.type_id = a) (hne : a ≠ b) :
    v.is a ha = true ∧ v.is b hb = false := by
  unfold TraitObject.is TraitObject.as_any Downcast.as_any AnyRef.is
  simp only [hhold]
  exact ⟨by simp, by simp [hne]⟩

/-- Witness for C1 at the concrete test universe: `Foo(42)` erased as
`dyn Base` satisfies the test at `Foo` and fails it at `Bar`. -/
theorem is_exact_witness :
    fooVal.is fooId (Or.inl rfl) = true ∧
      fooVal.is barId (Or.inr rfl) = false :=
  is_exact fooVal fooId barId (Or.inl rfl) (Or.inr rfl) rfl (by decide)

/-- Claim C2: the generated `downcast_ref` returns the stored value itself
(not a copy) viewed at type `t` when the underlying type is exactly `t`, and
none otherwise; it is a total function, so it can never panic. -/
theorem downcast_ref_exact {δ : TypeId → Type} {Impl : TypeId → Prop}
    (v : TraitObject δ Impl) (t : TypeId) (ht : Impl t) :
    (∀ h : v.data.type_id = t, v.downcast_ref t ht = some (h ▸ v.data.value)) ∧
      (v.data.type_id ≠ t → v.downcast_ref t ht = none) := by
  unfold TraitObject.downcast_ref TraitObject.as_any Downcast.as_any
    AnyRef.downcast_ref
  constructor
  · intro h
    simp [h]
  · intro h
    simp [h]

/-- Witness for C2: on `Foo(42)`, `downcast_ref` at tag `Foo` yields the
stored 42 and at tag `Bar` yields none. -/
theorem downcast_ref_exact_witness :
    fooVal.downcast_ref fooId (Or.inl rfl) = some (42 : Nat) ∧
      fooVal.downcast_ref barId (Or.inr rfl) = none :=
  ⟨(downcast_ref_exact fooVal fooId (Or.inl rfl)).1 rfl,
    (downcast_ref_exact fooVal barId (Or.inr rfl)).2 (by decide)⟩

/-- Claim C3: view fidelity.  `downcast_ref` at the underlying type observes
exactly the stored value at the moment of the call, and after mutating
through the view returned by `downcast_mut`, a subsequent `downcast_ref`
observes the mutated value. -/
theorem view_fidelity {δ : TypeId → Type} {Impl : TypeId → Prop}
    (v : TraitObject δ Impl) (a : TypeId) (ha : Impl a)
    (h : v.data.type_id = a) (f : δ a → δ a) :
    v.downcast_ref a ha = some (h ▸ v.data.value) ∧
      (v.write_mut a ha f).downcast_ref a ha = some (f (h ▸ v.data.value)) := by
  constructor
  · exact AnyRef.downcast_ref_pos v.data a h
  · show (v.data.write_mut a f).downcast_ref a = some (f (h ▸ v.data.value))
    rw [AnyRef.write_mut_pos v.data a h f]
    exact AnyRef.downcast_ref_pos _ a rfl

/-- Witness for C3: reading `Foo(42)` sees 42; adding 12 through the mutable
view and re-reading sees 54 (the concrete test sets 42 then 54). -/
theorem view_fidelity_witness :
    fooVal.downcast_ref fooId (Or.inl rfl) = some (42 : Nat) ∧
      (fooVal.write_mut fooId (Or.inl rfl)
        (fun n : Nat => n + 12)).downcast_ref fooId (Or.inl rfl) =
          some (54 : Nat) :=
  view_fidelity fooVal fooId (Or.inl rfl) rfl (fun n : Nat => n + 12)

/-- Claim C4: negative safety of the mutable view.  `downcast_mut` at a tag
different from the underlying type returns none, and at the matching tag it
returns the stored value itself viewed mutably (the same storage, never a
detached or garbage view). -/
theorem downcast_mut_safe {δ : TypeId → Type} {Impl : TypeId → Prop}
    (v : TraitObject δ Impl) (b : TypeId) (hb : Impl b) :
    (v.data.type_id ≠ b → v.downcast_mut b hb = none) ∧
      (∀ h : v.data.type_id = b, v.downcast_mut b hb = some (h ▸ v.data.value)) := by
  unfold TraitObject.downcast_mut TraitObject.as_any_mut Downcast.as_any_mut
    AnyRef.downcast_mut
  constructor
  · intro h
    simp [h]
  · intro h
    simp [h]

/-- Witness for C4: on `Foo(42)`, `downcast_mut` at tag `Bar` is none and at
tag `Foo` is the stored 42. -/
theorem downcast_mut_safe_witness :
    fooVal.downcast_mut barId (Or.inr rfl) = none ∧
      fooVal.downcast_mut fooId (Or.inl rfl) = some (42 : Nat) :=
  ⟨(downcast_mut_safe fooVal barId (Or.inr rfl)).1 (by decide),
    (downcast_mut_safe fooVal fooId (Or.inl rfl)).2 rfl⟩

/-- Claim C6: agreement of the three generated operations.  For every erased
value and candidate type, `downcast_ref` succeeds exactly when `is` holds,
and so does `downcast_mut`: all three reduce to the same tag comparison. -/
theorem ops_agree {δ : TypeId → Type} {Impl : TypeId → Prop}
    (v : TraitObject δ Impl) (t : TypeId) (ht : Impl t) :
    (v.downcast_ref t ht).isSome = v.is t ht ∧
      (v.downcast_mut t ht).isSome = v.is t ht := by
  unfold TraitObject.downcast_ref TraitObject.downcast_mut TraitObject.is
    TraitObject.as_any TraitObject.as_any_mut Downcast.as_any
    Downcast.as_any_mut AnyRef.downcast_ref AnyRef.downcast_mut AnyRef.is
  by_cases h : v.data.type_id = t
  · simp [h]
  · simp [h]

/-- Witness for C6 at `Foo(42)` and candidate tag `Foo`. -/
theorem ops_agree_witness :
    (fooVal.downcast_ref fooId (Or.inl rfl)).isSome =
        fooVal.is fooId (Or.inl rfl) ∧
      (fooVal.downcast_mut fooId (Or.inl rfl)).isSome =
        fooVal.is fooId (Or.inl rfl) :=
  ops_agree fooVal fooId (Or.inl rfl)

/-- Claim C9: atomicity of a failed mutable downcast.  When the underlying
type is not `t`, `downcast_mut` returns none and writing through it leaves
the value completely unchanged. -/
theorem failed_mut_atomic {δ : TypeId → Type} {Impl : TypeId → Prop}
    (v : TraitObject δ Impl) (t : TypeId) (ht : Impl t)
    (h : v.data.type_id ≠ t) (f : δ t → δ t) :
    v.downcast_mut t ht = none ∧ v.write_mut t ht f = v := by
  constructor
  · unfold TraitObject.downcast_mut TraitObject.as_any_mut Downcast.as_any_mut
      AnyRef.downcast_mut
    simp [h]
  · unfold TraitObject.write_mut AnyRef.write_mut
    obtain ⟨⟨tid, val⟩, himpl⟩ := v
    simp_all

/-- Witness for C9: on `Foo(42)`, a mutable downcast at tag `Bar` fails and
an attempted write through it changes nothing. -/
theorem failed_mut_atomic_witness :
    fooVal.downcast_mut barId (Or.inr rfl) = none ∧
      fooVal.write_mut barId (Or.inr rfl) (fun x : Int => x + 1) = fooVal :=
  failed_mut_atomic fooVal barId (Or.inr rfl) (by decide) (fun x : Int => x + 1)

/-- Claim C10: the blanket implementation of the type-identity capability.
`as_any` is a total function (always succeeds, no side effect) and returns
the erased view of the very value it was called on: same tag, same stored
value, no copy; `as_any_mut` agrees with it; and on a trait object the
dynamically dispatched `as_any` / `as_any_mut` give back exactly the
underlying erased data.  The single definition covers every tag of every
universe, modelling the one blanket impl that no implementer overrides. -/
theorem as_any_identity {δ : TypeId → Type} {Impl : TypeId → Prop}
    (t : TypeId) (x : δ t) (v : TraitObject δ Impl) :
    (Downcast.as_any t x).type_id = t ∧
      (Downcast.as_any t x).value = x ∧
      Downcast.as_any_mut t x = Downcast.as_any t x ∧
      v.as_any = v.data ∧ v.as_any_mut = v.data :=
  ⟨rfl, rfl, rfl, rfl, rfl⟩

/-! Call-trace model, for the purity of the read-only operations.  The
generated `is` and `downcast_ref` take a shared borrow (`&self` in
src/lib.rs lines 40 and 45) and only forward it to `as_any`, so a call
leaves the value as it was; only writing through the view of `downcast_mut`
(which takes `&mut self`) changes it. -/

/-- One call against a trait-object value. -/
inductive Op (δ : TypeId → Type) (Impl : TypeId → Prop) where
  | isOp (t : TypeId) (ht : Impl t)
  | refOp (t : TypeId) (ht : Impl t)
  | mutOp (t : TypeId) (ht : Impl t) (f : δ t → δ t)

/-- Effect of one call on the inspected value: the shared-borrow calls leave
it unchanged, a write through `downcast_mut` updates it. -/
def Op.step {δ : TypeId → Type} {Impl : TypeId → Prop}
    (v : TraitObject δ Impl) : Op δ Impl → TraitObject δ Impl
  | .isOp _ _ => v
  | .refOp _ _ => v
  | .mutOp t ht f => v.write_mut t ht f

/-- Running a sequence of calls against a value. -/
def run {δ : TypeId → Type} {Impl : TypeId → Prop}
    (v : TraitObject δ Impl) (ops : List (Op δ Impl)) : TraitObject δ Impl :=
  ops.foldl Op.step v

/-- A call is read-only when it is `is` or `downcast_ref`. -/
def Op.reads {δ : TypeId → Type} {Impl : TypeId → Prop} :
    Op δ Impl → Prop
  | .mutOp _ _ _ => False
  | _ => True

/-- A sequence of read-only calls leaves the value exactly as it was. -/
theorem run_reads_eq {δ : TypeId → Type} {Impl : TypeId → Prop} :
    ∀ (ops : List (Op δ Impl)) (v : TraitObject δ Impl),
      (∀ op ∈ ops, op.reads) → run v ops = v
  | [], _, _ => rfl
  | op :: rest, v, h => by
    have h1 : op.reads := h op (List.mem_cons_self op rest)
    have hstep : Op.step v op = v := by
      cases op with
      | isOp t ht => rfl
      | refOp t ht => rfl
      | mutOp t ht f => exact absurd h1 (by simp [Op.reads])
    show run (Op.step v op) rest = v
    rw [hstep]
    exact run_reads_eq rest v (fun o ho => h o (List.mem_cons_of_mem op ho))

/-- Claim C7: idempotence and purity of the read-only operations.  Any
sequence of `is` / `downcast_ref` calls with no intervening modification
leaves the value exactly as it was, and therefore every later `is` or
`downcast_ref` returns the same result as before the sequence. -/
theorem read_calls_pure {δ : TypeId → Type} {Impl : TypeId → Prop}
    (v : TraitObject δ Impl) (ops : List (Op δ Impl))
    (hro : ∀ op ∈ ops, op.reads) :
    run v ops = v ∧
      ∀ (t : TypeId) (ht : Impl t),
        (run v ops).is t ht = v.is t ht ∧
          (run v ops).downcast_ref t ht = v.downcast_ref t ht := by
  have hrun : run v ops = v := run_reads_eq ops v hro
  exact ⟨hrun, fun t ht => by rw [hrun]; exact ⟨rfl, rfl⟩⟩

/-- A concrete read-only call trace against `Foo(42)`. -/
def testOps : List (Op testδ testImpl) :=
  [Op.isOp fooId (Or.inl rfl), Op.refOp barId (Or.inr rfl),
    Op.refOp fooId (Or.inl rfl)]

/-- Witness for C7: the concrete trace of three read-only calls leaves
`Foo(42)` untouched and the type test after it is unchanged. -/
theorem read_calls_pure_witness :
    run fooVal testOps = fooVal ∧
      (run fooVal testOps).is fooId (Or.inl rfl) =
        fooVal.is fooId (Or.inl rfl) :=
  ⟨(read_calls_pure fooVal testOps
      (by simp [testOps, List.forall_mem_cons, Op.reads])).1,
    ((read_calls_pure fooVal testOps
      (by simp [testOps, List.forall_mem_cons, Op.reads])).2 fooId
        (Or.inl rfl)).1⟩

/-! Syntactic layer: the shape analysis of the impl_downcast macro
(src/lib.rs lines 20-96).  An invocation is one of the five top-level arms;
@impl_full assembles the generated impl item, @inject_where builds its where
clause, and @impl_body fixes the three methods, whose bodies are the same
forwarding code for every shape and whose method type parameter is bounded
by the trait applied to the parameter list. -/

/-- One item of a generated where clause: the implicit bound
(Any + static lifetime) injected on a free parameter, or an author-supplied
predicate token tree of opaque type `P`. -/
inductive WhereItem (P : Type) where
  | anyStatic (param : String)
  | authorPred (p : P)
deriving DecidableEq

/-- The @inject_where rules (src/lib.rs lines 55-77): no where clause when
there are no free types and no predicates; the implicit bound on each free
type when there are no predicates; and the implicit bounds followed by the
author predicates otherwise. -/
def inject_where {P : Type} (types : List String) (preds : List P) :
    List (WhereItem P) :=
  match types, preds with
  | [], [] => []
  | ts, [] => ts.map WhereItem.anyStatic
  | ts, ps => ts.map WhereItem.anyStatic ++ ps.map WhereItem.authorPred

/-- The impl item produced by @impl_full: the generics of the impl header,
the trait and parameter list of the erased form the methods attach to, the
where clause, and the parameter list in the trait bound that @impl_body puts
on the method type parameter of `is` / `downcast_ref` / `downcast_mut`. -/
structure GenImpl (P : Type) where
  generics : List String
  traitName : String
  traitParams : List String
  whereItems : List (WhereItem P)
  methodBound : List String
deriving DecidableEq

/-- The @impl_full rule (src/lib.rs lines 22-36): header generics are the
forall types, the impl attaches to the trait at the param types, the where
clause comes from @inject_where on the forall types and the predicates, and
the method bound repeats the param types. -/
def impl_full {P : Type} (tr : String) (paramTypes forallTypes : List String)
    (preds : List P) : GenImpl P :=
  ⟨forallTypes, tr, paramTypes, inject_where forallTypes preds, paramTypes⟩

/-- The five author-facing arms of impl_downcast (src/lib.rs lines 81-95). -/
inductive MacroInput (P : Type) where
  | noParams (tr : String)
  | emptyParams (tr : String)
  | universal (tr : String) (types : List String)
  | universalWhere (tr : String) (types : List String) (preds : List P)
  | concrete (tr : String) (types : List String)

/-- Dispatch of the five top-level arms into @impl_full, exactly as in the
source: the universal arms pass the parameter list both as param types and as
forall types; the concrete arm passes an empty forall list. -/
def expand {P : Type} : MacroInput P → GenImpl P
  | .noParams tr => impl_full tr [] [] []
  | .emptyParams tr => impl_full tr [] [] []
  | .universal tr ts => impl_full tr ts ts []
  | .universalWhere tr ts ps => impl_full tr ts ts ps
  | .concrete tr ts => impl_full tr ts [] []

/-- Claim C8: implicit bound injection.  In universal mode every free type
parameter receives the injected Any-plus-static-lifetime bound without the
author writing it; author-supplied predicates are merged after the injected
bounds; in concrete mode the generated impl has no free generics and an
empty where clause, so no implicit bound is injected at all. -/
theorem implicit_bound_injection {P : Type} (tr : String)
    (ts : List String) (ps : List P) :
    (expand (MacroInput.universal tr ts : MacroInput P)).whereItems =
        ts.map WhereItem.anyStatic ∧
      (expand (MacroInput.universalWhere tr ts ps)).whereItems =
        ts.map WhereItem.anyStatic ++ ps.map WhereItem.authorPred ∧
      (expand (MacroInput.concrete tr ts : MacroInput P)).generics = [] ∧
      (expand (MacroInput.concrete tr ts : MacroInput P)).whereItems = [] := by
  cases ts <;> cases ps <;>
    simp [expand, impl_full, inject_where]

/-- The part of a generated impl that determines the synthesized methods:
which trait instantiation the erased form carries and the trait bound on the
method type parameter.  The method bodies are fixed forwarding code,
identical for every shape. -/
structure MethodSurface where
  traitName : String
  traitParams : List String
  methodBound : List String
deriving DecidableEq

/-- The method surface of a generated impl once its header generics are
instantiated by the substitution `σ`. -/
def GenImpl.surfaceAt {P : Type} (σ : String → String) (g : GenImpl P) :
    MethodSurface :=
  ⟨g.traitName, g.traitParams.map σ, g.methodBound.map σ⟩

/-- The substitution fixing the single parameter T at u32. -/
def atU32 : String → String := fun s => if s = "T" then "u32" else s

/-- Claim C5: parameter-shape equivalence.  Instantiating the universal
expansion for a trait Base with parameter T at T := u32 yields the same
method surface as the concrete expansion for Base at u32; and the generated
operations behave identically on every erased value of matching underlying
type held through the two forms: same `is`, same `downcast_ref`, same
`downcast_mut`. -/
theorem shape_equivalence {δ : TypeId → Type}
    {ImplU ImplC : TypeId → Prop}
    (vU : TraitObject δ ImplU) (vC : TraitObject δ ImplC)
    (hdata : vU.data = vC.data) (t : TypeId) (htU : ImplU t) (htC : ImplC t) :
    (expand (MacroInput.universal "Base" ["T"] : MacroInput String)).surfaceAt
          atU32 =
        (expand (MacroInput.concrete "Base" ["u32"] :
          MacroInput String)).surfaceAt id ∧
      vU.is t htU = vC.is t htC ∧
      vU.downcast_ref t htU = vC.downcast_ref t htC ∧
      vU.downcast_mut t htU = vC.downcast_mut t htC := by
  refine ⟨by decide, ?_, ?_, ?_⟩
  · show vU.data.is t = vC.data.is t
    rw [hdata]
  · show vU.data.downcast_ref t = vC.data.downcast_ref t
    rw [hdata]
  · show vU.data.downcast_mut t = vC.data.downcast_mut t
    rw [hdata]

/-- Implementers of the concretely-generated extension in the concrete test
module of src/lib.rs: only `Foo` implements Base at u32 there. -/
def implU32 : TypeId → Prop := fun t => t = fooId

/-- The value `Foo(42)` held through the concretely-extended trait form. -/
def fooValC : TraitObject testδ implU32 :=
  ⟨⟨fooId, (42 : Nat)⟩, rfl⟩

/-- Witness for C5: `Foo(42)` held through the universal form at u32 and
through the concrete form carries the same data, and the generated
operations agree on it. -/
theorem shape_equivalence_witness :
    (expand (MacroInput.universal "Base" ["T"] : MacroInput String)).surfaceAt
          atU32 =
        (expand (MacroInput.concrete "Base" ["u32"] :
          MacroInput String)).surfaceAt id ∧
      fooVal.is fooId (Or.inl rfl) = fooValC.is fooId rfl ∧
      fooVal.downcast_ref fooId (Or.inl rfl) =
        fooValC.downcast_ref fooId rfl ∧
      fooVal.downcast_mut fooId (Or.inl rfl) =
        fooValC.downcast_mut fooId rfl :=
  shape_equivalence fooVal fooValC rfl fooId (Or.inl rfl) rfl
